import Mathlib

/-!
Verification of the Listener Classification & Aggregation Engine of
`lsof-work-ports` (src/main.rs), as a shallow embedding in Lean 4.

Strings are modelled as lists of characters (`Str`); Rust's
`to_lowercase`/`contains` become `lower`/`containsSub`.  The `HashMap`-based
grouping stages are modelled with an insertion-ordered key list
(`firstSeen`), as the hash-map iteration order is unspecified and the design
notes ask for first-seen-order grouping semantics.
-/

namespace LsofWorkPorts

/-- Strings are modelled as lists of characters. -/
abbrev Str := List Char

/-- Rust `str::to_lowercase` (ASCII-faithful model). -/
def lower (s : Str) : Str := s.map Char.toLower

/-- Does `hay` start with `nee`?  Helper for substring containment. -/
def startsWith : Str → Str → Bool
  | _, [] => true
  | [], _ :: _ => false
  | a :: as, b :: bs => a == b && startsWith as bs

/-- Rust `str::contains` (substring containment). -/
def containsSub : Str → Str → Bool
  | [], nee => nee.isEmpty
  | a :: as, nee => startsWith (a :: as) nee || containsSub as nee

/-- Input record: one listening socket / process pair (struct `PortInfo`). -/
structure PortInfo where
  port : Nat
  process : Str
  pid : Str
  command : Str
  start_time : Str
  address : Str
deriving DecidableEq

/-- Per-port aggregate (struct `GroupedPortInfo`). -/
structure GroupedPortInfo where
  port : Nat
  processes : List Str
  pids : List Str
  command : Str
  start_time : Str
  is_local : Bool
  dev_score : Nat
deriving DecidableEq

/-- Per-process aggregate (struct `ProcessGroup`). -/
structure ProcessGroup where
  process_name : Str
  port_pid_pairs : List (Nat × Str)
  command : Str
  start_time : Str
  is_local : Bool
deriving DecidableEq

/-- Rule set (struct `Config`). -/
structure Config where
  dev_processes : List Str
  dev_keywords : List Str
  exclude_processes : List Str
  score_threshold : Nat
deriving DecidableEq

/-- `is_local_address` from the source. -/
def is_local_address (address : Str) : Bool :=
  address == "127.0.0.1".data || address == "localhost".data ||
  address == "0.0.0.0".data || address == "*".data ||
  address == "[::1]".data || address == "[::]".data

/-- The `matches!` port-range test inside `calc_dev_score`. -/
def portInDevRange (port : Nat) : Bool :=
  (decide (3000 ≤ port) && decide (port ≤ 3999)) ||
  (decide (4000 ≤ port) && decide (port ≤ 4999)) ||
  (decide (5000 ≤ port) && decide (port ≤ 5999)) ||
  (decide (8000 ≤ port) && decide (port ≤ 8999)) ||
  (decide (9000 ≤ port) && decide (port ≤ 9999))

/-- `calc_dev_score` from the source. -/
def calc_dev_score (process command : Str) (port : Nat) (address : Str)
    (dev_processes dev_keywords exclude_processes : List Str) : Nat :=
  let process_lower := lower process
  let command_lower := lower command
  if exclude_processes.any (fun e =>
      let e_lower := lower e
      containsSub process_lower e_lower || containsSub command_lower e_lower) then
    0
  else
    (if dev_processes.any (fun p => containsSub process_lower (lower p)) then 30 else 0) +
    (if dev_keywords.any (fun k => containsSub command_lower (lower k)) then 25 else 0) +
    (if is_local_address address then 10 else 0) +
    (if portInDevRange port then 15 else 0)

/-- The keep-predicate of `filter_port_infos`, with the source's early-return
structure. -/
def keepInfo (port_filter : Option Nat) (process_filter : Option Str)
    (info : PortInfo) : Bool :=
  if port_filter.elim false (fun port => ! (info.port == port)) then false
  else if process_filter.elim false
      (fun process => ! containsSub (lower info.process) (lower process)) then false
  else true

/-- `filter_port_infos` from the source. -/
def filter_port_infos (port_infos : List PortInfo) (port_filter : Option Nat)
    (process_filter : Option Str) : List PortInfo :=
  port_infos.filter (keepInfo port_filter process_filter)

/-- Claim-side filter predicate: the record's port equals the port filter
when one is supplied, and its process name case-insensitively contains the
process filter as a substring when one is supplied. -/
def matchesFilters (port_filter : Option Nat) (process_filter : Option Str)
    (info : PortInfo) : Bool :=
  (match port_filter with
   | some port => info.port == port
   | none => true) &&
  (match process_filter with
   | some process => containsSub (lower info.process) (lower process)
   | none => true)

/-- First-seen deduplication with an explicit seen-set, modelling the
`dedup_by` closure over a `HashSet` from the source. -/
def dedupFrom [DecidableEq α] : List α → List α → List α
  | _, [] => []
  | seen, k :: ks =>
    if k ∈ seen then dedupFrom seen ks else k :: dedupFrom (k :: seen) ks

/-- First-seen deduplication of a list (Rust `dedup_by` with empty seen set). -/
def firstSeen [DecidableEq α] (l : List α) : List α := dedupFrom [] l

/-- `deduplicate_pids` from the source. -/
def deduplicate_pids (infos : List PortInfo) : List Str :=
  firstSeen (infos.map (fun i => i.pid))

/-- The body of the `group_by_port` output loop for one port: build the
per-port aggregate from the records with that port (which arrive in input
order, as `HashMap::entry(..).push` preserves it). -/
def makePortGroup (port_infos : List PortInfo) (config : Config)
    (port : Nat) : GroupedPortInfo :=
  let infos := port_infos.filter (fun i => i.port == port)
  let processes := infos.map (fun i => i.process)
  let pids := deduplicate_pids infos
  let command := (infos.head?.map (fun i => i.command)).getD []
  let start_time := (infos.head?.map (fun i => i.start_time)).getD []
  let is_local := (infos.head?.map (fun i => is_local_address i.address)).getD false
  let address := (infos.head?.map (fun i => i.address)).getD ['*']
  let process := (infos.head?.map (fun i => i.process)).getD []
  let dev_score := calc_dev_score process command port address
    config.dev_processes config.dev_keywords config.exclude_processes
  { port, processes, pids, command, start_time, is_local, dev_score }

/-- `group_by_port` from the source; the `HashMap` iteration order is
modelled as first-insertion order (the spec leaves it unspecified). -/
def group_by_port (port_infos : List PortInfo) (config : Config) :
    List GroupedPortInfo :=
  (firstSeen (port_infos.map (fun i => i.port))).map
    (makePortGroup port_infos config)

/-- The grouping key used by both `group_by_process` and the tier split in
`main`: the first entry of `processes`, or the empty string. -/
def procKey (g : GroupedPortInfo) : Str := g.processes.head?.getD []

/-- The body of the `group_by_process` output loop for one process name:
the `(port, pid)` pairs are collected by the source's nested loop over the
bucket's groups and each group's pids. -/
def makeProcessGroup (port_infos : List GroupedPortInfo)
    (process_name : Str) : ProcessGroup :=
  let infos := port_infos.filter (fun i => decide (procKey i = process_name))
  let port_pid_pairs :=
    infos.flatMap (fun i => i.pids.map (fun pid => (i.port, pid)))
  let command := (infos.head?.map (fun i => i.command)).getD []
  let start_time := (infos.head?.map (fun i => i.start_time)).getD []
  let is_local := (infos.head?.map (fun i => i.is_local)).getD false
  { process_name, port_pid_pairs, command, start_time, is_local }

/-- `group_by_process` from the source; iteration order modelled as
first-insertion order. -/
def group_by_process (port_infos : List GroupedPortInfo) : List ProcessGroup :=
  (firstSeen (port_infos.map procKey)).map (makeProcessGroup port_infos)

/-- The non-development remainder of the score/threshold partition in `main`
(the `partition` call keeps order, so the remainder is a filter). -/
def nonDev (groups : List GroupedPortInfo) (threshold : Nat) :
    List GroupedPortInfo :=
  groups.filter (fun g => ! decide (threshold ≤ g.dev_score))

/-- The bucket (within a list `nd`) that a group falls into when bucketing by
`procKey`. -/
def bucketOf (nd : List GroupedPortInfo) (g : GroupedPortInfo) :
    List GroupedPortInfo :=
  nd.filter (fun g2 => decide (procKey g2 = procKey g))

/-- The `by_process` buckets built in `main` (lines 717-723): the remainder
bucketed by `procKey`, with hash-map iteration modelled as first-seen key
order. -/
def tierBuckets (nd : List GroupedPortInfo) : List (List GroupedPortInfo) :=
  (firstSeen (nd.map procKey)).map
    (fun k => nd.filter (fun g => decide (procKey g = k)))

/-- The per-bucket dispatch loop of `main` (lines 729-744): a singleton bucket
goes to `others` or `multis` depending on its pid count, any other bucket is
appended wholesale to the process-group seed. -/
def splitBuckets : List (List GroupedPortInfo) →
    List GroupedPortInfo × List GroupedPortInfo × List GroupedPortInfo
  | [] => ([], [], [])
  | b :: bs =>
    let r := splitBuckets bs
    match b with
    | [item] =>
      if item.pids.length = 1 then (item :: r.1, r.2.1, r.2.2)
      else (r.1, item :: r.2.1, r.2.2)
    | [] => (r.1, r.2.1, [] ++ r.2.2)
    | x :: y :: rest => (r.1, r.2.1, (x :: y :: rest) ++ r.2.2)

/-- The tier partitioner from `main` (lines 707-747): score/threshold
partition, optional discarding of the remainder, bucketing by `procKey`
(hash-map iteration modelled as first-insertion order), and the per-bucket
dispatch. -/
def tierPartition (groups : List GroupedPortInfo) (threshold : Nat)
    (show_all : Bool) :
    List GroupedPortInfo × List GroupedPortInfo × List GroupedPortInfo ×
      List GroupedPortInfo :=
  let dev := groups.filter (fun g => decide (threshold ≤ g.dev_score))
  let nd := if show_all then nonDev groups threshold else []
  let s := splitBuckets (tierBuckets nd)
  (dev, s.1, s.2.1, s.2.2)

/-- Lexicographic byte-order comparison of strings (Rust `String` `Ord`),
as a less-or-equal test on code points. -/
def lexLe : Str → Str → Bool
  | [], _ => true
  | _ :: _, [] => false
  | a :: as, b :: bs =>
    if a.toNat = b.toNat then lexLe as bs else decide (a.toNat < b.toNat)

/-- Default-mode comparator for the dev tier
(`b.dev_score.cmp(&a.dev_score).then(a.port.cmp(&b.port))`), as the
corresponding less-or-equal test. -/
def devLe (a b : GroupedPortInfo) : Bool :=
  decide (b.dev_score < a.dev_score) ||
    (decide (a.dev_score = b.dev_score) && decide (a.port ≤ b.port))

/-- Default-mode comparator for `others`/`multis` (`sort_by_key(port)`). -/
def portLe (a b : GroupedPortInfo) : Bool := decide (a.port ≤ b.port)

/-- Default-mode comparator for process groups
(`sort_by_key(process_name)`). -/
def nameLe (a b : ProcessGroup) : Bool := lexLe a.process_name b.process_name

/-- Recent-mode comparator (`b.start_time.cmp(&a.start_time)`: most recent,
i.e. lexically largest, first). -/
def recentLe (a b : GroupedPortInfo) : Bool := lexLe b.start_time a.start_time

/-- Recent-mode comparator for process groups. -/
def recentLeP (a b : ProcessGroup) : Bool := lexLe b.start_time a.start_time

/-- The four output collections of the pipeline. -/
structure Tiers where
  dev : List GroupedPortInfo
  others : List GroupedPortInfo
  multis : List GroupedPortInfo
  procs : List ProcessGroup
deriving DecidableEq

/-- The sort stage of `main` (lines 754-767).  Rust's stable `sort_by` is
modelled by stable `mergeSort` with the matching less-or-equal tests. -/
def sortTiers (sort_recent : Bool) (t : Tiers) : Tiers :=
  if sort_recent then
    { dev := t.dev.mergeSort recentLe
      others := t.others.mergeSort recentLe
      multis := t.multis.mergeSort recentLe
      procs := t.procs.mergeSort recentLeP }
  else
    { dev := t.dev.mergeSort devLe
      others := t.others.mergeSort portLe
      multis := t.multis.mergeSort portLe
      procs := t.procs.mergeSort nameLe }

/-- Rust `usize::MAX` on a 64-bit host. -/
def USIZE_MAX : Nat := 2 ^ 64 - 1

/-- The limit stage of `main` (lines 769-774):
`limit = if cli.limit > 0 { cli.limit } else { usize::MAX }` followed by an
independent `take(limit)` on each tier. -/
def applyLimit (limit : Nat) (t : Tiers) : Tiers :=
  let lim := if 0 < limit then limit else USIZE_MAX
  { dev := t.dev.take lim
    others := t.others.take lim
    multis := t.multis.take lim
    procs := t.procs.take lim }

/-- `total_count` from `main` (line 776). -/
def totalCount (t : Tiers) : Nat :=
  t.dev.length + t.others.length + t.multis.length + t.procs.length

/-- The whole core pipeline of `main`: filter, group by port, partition into
tiers, regroup the seed by process, sort, limit. -/
def runCore (records : List PortInfo) (config : Config)
    (port_filter : Option Nat) (process_filter : Option Str)
    (show_all sort_recent : Bool) (limit : Nat) : Tiers :=
  let filtered := filter_port_infos records port_filter process_filter
  let grouped := group_by_port filtered config
  let p := tierPartition grouped config.score_threshold show_all
  let procs := group_by_process p.2.2.2
  applyLimit limit (sortTiers sort_recent
    { dev := p.1, others := p.2.1, multis := p.2.2.1, procs := procs })

/-- Index of the first occurrence of `a` (length of the list if absent);
used to state first-seen ordering. -/
def firstIdx [DecidableEq α] (a : α) : List α → Nat
  | [] => 0
  | b :: l => if a = b then 0 else firstIdx a l + 1

/-- Sample rule set for concrete witnesses. -/
def exampleConfig : Config :=
  { dev_processes := ["node".data]
    dev_keywords := ["vite".data]
    exclude_processes := []
    score_threshold := 30 }

/-- Sample listener records for concrete witnesses. -/
def exampleRecords : List PortInfo :=
  [ { port := 3000, process := "node".data, pid := "111".data,
      command := "vite dev".data, start_time := "t1".data,
      address := "127.0.0.1".data }
  , { port := 3000, process := "node2".data, pid := "111".data,
      command := "x".data, start_time := "t2".data, address := ['*'] }
  , { port := 5432, process := "postgres".data, pid := "222".data,
      command := "pg".data, start_time := "t0".data, address := ['*'] } ]

/-- A sample per-port group for concrete witnesses. -/
def sampleGroup (port score : Nat) (name pid : Str) : GroupedPortInfo :=
  { port := port, processes := [name], pids := [pid], command := [],
    start_time := [port.digitChar], is_local := true, dev_score := score }

/-- Sample tiers holding five dev entries, for the limit witness. -/
def exampleTiers : Tiers :=
  { dev := [sampleGroup 1 50 ['a'] ['1'], sampleGroup 2 40 ['b'] ['2'],
            sampleGroup 3 30 ['c'] ['3'], sampleGroup 4 60 ['d'] ['4'],
            sampleGroup 5 55 ['e'] ['5']]
    others := [sampleGroup 6 0 ['f'] ['6'], sampleGroup 7 0 ['g'] ['7']]
    multis := [sampleGroup 8 0 ['h'] ['8']]
    procs := [] }

/-- Sample process-group seed: two groups share the owning process name
so they fold into one `ProcessGroup`. -/
def exampleSeed : List GroupedPortInfo :=
  [sampleGroup 80 0 ['a'] ['1'], sampleGroup 81 0 ['a'] ['2'],
   sampleGroup 82 0 ['b'] ['3']]

/-- Sample partitioner input exercising all four tiers: a dev group, a
single-pid singleton bucket, a multi-pid singleton bucket, and a two-group
bucket. -/
def examplePartitionInput : List GroupedPortInfo :=
  [sampleGroup 80 0 ['a'] ['1'], sampleGroup 81 0 ['a'] ['2'],
   { port := 82, processes := [['b']], pids := [['1'], ['2']], command := [],
     start_time := [], is_local := true, dev_score := 0 },
   sampleGroup 83 55 ['c'] ['9'], sampleGroup 84 0 ['d'] ['7']]

-- ===========================================================================
-- Helper lemmas about first-seen deduplication
-- ===========================================================================

theorem mem_dedupFrom [DecidableEq α] (x : α) (l : List α) :
    ∀ seen, x ∈ dedupFrom seen l ↔ x ∈ l ∧ x ∉ seen := by
  induction l with
  | nil => intro seen; simp [dedupFrom]
  | cons k ks ih =>
    intro seen
    by_cases hk : k ∈ seen
    · rw [dedupFrom, if_pos hk, ih seen]
      constructor
      · rintro ⟨h1, h2⟩; exact ⟨List.mem_cons_of_mem _ h1, h2⟩
      · rintro ⟨h1, h2⟩
        rcases List.mem_cons.mp h1 with h | h
        · exact absurd (h ▸ hk) h2
        · exact ⟨h, h2⟩
    · rw [dedupFrom, if_neg hk]
      simp only [List.mem_cons, ih (k :: seen)]
      constructor
      · rintro (rfl | ⟨h1, h2⟩)
        · exact ⟨Or.inl rfl, hk⟩
        · exact ⟨Or.inr h1, fun hs => h2 (Or.inr hs)⟩
      · rintro ⟨rfl | h1, h2⟩
        · exact Or.inl rfl
        · by_cases hxk : x = k
          · exact Or.inl hxk
          · exact Or.inr ⟨h1, fun hs => hs.elim hxk h2⟩

theorem nodup_dedupFrom [DecidableEq α] (l : List α) :
    ∀ seen, (dedupFrom seen l).Nodup := by
  induction l with
  | nil => intro seen; simp [dedupFrom]
  | cons k ks ih =>
    intro seen
    by_cases hk : k ∈ seen
    · rw [dedupFrom, if_pos hk]; exact ih seen
    · rw [dedupFrom, if_neg hk]
      refine List.nodup_cons.mpr ⟨fun hmem => ?_, ih (k :: seen)⟩
      exact ((mem_dedupFrom k ks (k :: seen)).mp hmem).2 (List.mem_cons_self k seen)

theorem dedupFrom_sublist [DecidableEq α] (l : List α) :
    ∀ seen, List.Sublist (dedupFrom seen l) l := by
  induction l with
  | nil => intro seen; simp [dedupFrom]
  | cons k ks ih =>
    intro seen
    by_cases hk : k ∈ seen
    · rw [dedupFrom, if_pos hk]; exact (ih seen).cons k
    · rw [dedupFrom, if_neg hk]; exact (ih (k :: seen)).cons₂ k

theorem mem_firstSeen [DecidableEq α] (x : α) (l : List α) :
    x ∈ firstSeen l ↔ x ∈ l := by
  rw [firstSeen, mem_dedupFrom]
  simp

theorem nodup_firstSeen [DecidableEq α] (l : List α) : (firstSeen l).Nodup :=
  nodup_dedupFrom l []

theorem firstSeen_sublist [DecidableEq α] (l : List α) :
    List.Sublist (firstSeen l) l :=
  dedupFrom_sublist l []

theorem pairwise_firstIdx_dedupFrom [DecidableEq α] (l : List α) :
    ∀ seen, (dedupFrom seen l).Pairwise
      (fun a b => firstIdx a l < firstIdx b l) := by
  induction l with
  | nil => intro seen; simp [dedupFrom]
  | cons k ks ih =>
    intro seen
    by_cases hk : k ∈ seen
    · rw [dedupFrom, if_pos hk]
      refine (ih seen).imp_of_mem ?_
      intro a b ha hb hab
      have ha2 := (mem_dedupFrom a ks seen).mp ha
      have hb2 := (mem_dedupFrom b ks seen).mp hb
      have hak : a ≠ k := by rintro rfl; exact ha2.2 hk
      have hbk : b ≠ k := by rintro rfl; exact hb2.2 hk
      simp only [firstIdx, if_neg hak, if_neg hbk]
      omega
    · rw [dedupFrom, if_neg hk]
      refine List.pairwise_cons.mpr ⟨?_, ?_⟩
      · intro b hb
        have hb2 := (mem_dedupFrom b ks (k :: seen)).mp hb
        have hbk : b ≠ k := by
          rintro rfl; exact hb2.2 (List.mem_cons_self b seen)
        have e1 : firstIdx k (k :: ks) = 0 := by simp [firstIdx]
        have e2 : firstIdx b (k :: ks) = firstIdx b ks + 1 := by
          simp [firstIdx, hbk]
        rw [e1, e2]
        omega
      · refine (ih (k :: seen)).imp_of_mem ?_
        intro a b ha hb hab
        have ha2 := (mem_dedupFrom a ks (k :: seen)).mp ha
        have hb2 := (mem_dedupFrom b ks (k :: seen)).mp hb
        have hak : a ≠ k := by
          rintro rfl; exact ha2.2 (List.mem_cons_self a seen)
        have hbk : b ≠ k := by
          rintro rfl; exact hb2.2 (List.mem_cons_self b seen)
        simp only [firstIdx, if_neg hak, if_neg hbk]
        omega

theorem pairwise_firstIdx_firstSeen [DecidableEq α] (l : List α) :
    (firstSeen l).Pairwise (fun a b => firstIdx a l < firstIdx b l) :=
  pairwise_firstIdx_dedupFrom l []

-- ===========================================================================
-- Classification function (claims C2, C3)
-- ===========================================================================

theorem ite_bool_prop (b : Bool) (P : Prop) [Decidable P] (hbp : b = true ↔ P)
    (x y : Nat) : (if b then x else y) = (if P then x else y) := by
  by_cases hP : P
  · rw [if_pos (hbp.mpr hP), if_pos hP]
  · rw [if_neg (fun hb => hP (hbp.mp hb)), if_neg hP]

/-- C2: if the process name or the command line case-insensitively contains
any `exclude_processes` entry as a substring, `calc_dev_score` returns 0,
whatever the other signals would contribute. -/
theorem exclusion_dominance (process command : Str) (port : Nat) (address : Str)
    (dev_processes dev_keywords exclude_processes : List Str)
    (h : ∃ e ∈ exclude_processes,
      containsSub (lower process) (lower e) = true ∨
      containsSub (lower command) (lower e) = true) :
    calc_dev_score process command port address
      dev_processes dev_keywords exclude_processes = 0 := by
  obtain ⟨e, he, hc⟩ := h
  have hany : (exclude_processes.any fun e =>
      containsSub (lower process) (lower e) ||
      containsSub (lower command) (lower e)) = true := by
    refine List.any_eq_true.mpr ⟨e, he, ?_⟩
    rcases hc with hc | hc <;> simp [hc]
  simp only [calc_dev_score, hany, if_true]

/-- C2 witness: the spec's own example, process `Code Helper` with a fully
dev-looking command, port and address still scores 0. -/
theorem exclusion_dominance_witness :
    (∃ e ∈ ["Code Helper".data],
      containsSub (lower "Code Helper".data) (lower e) = true ∨
      containsSub (lower "node webpack dev".data) (lower e) = true) ∧
    calc_dev_score "Code Helper".data "node webpack dev".data 3000
      "127.0.0.1".data ["node".data] ["webpack".data] ["Code Helper".data] = 0 :=
  ⟨by decide,
   exclusion_dominance "Code Helper".data "node webpack dev".data 3000
     "127.0.0.1".data ["node".data] ["webpack".data] ["Code Helper".data]
     (by decide)⟩

theorem any_contains_iff (s : Str) (pats : List Str) :
    (pats.any fun p => containsSub s (lower p)) = true ↔
    ∃ p ∈ pats, containsSub s (lower p) = true := by
  rw [List.any_eq_true]

theorem local_address_iff (address : Str) : is_local_address address = true ↔
    (address = "127.0.0.1".data ∨ address = "localhost".data ∨
      address = "0.0.0.0".data ∨ address = "*".data ∨
      address = "[::1]".data ∨ address = "[::]".data) := by
  simp only [is_local_address, Bool.or_eq_true, beq_iff_eq, or_assoc]

theorem port_range_iff (port : Nat) : portInDevRange port = true ↔
    ((3000 ≤ port ∧ port ≤ 3999) ∨ (4000 ≤ port ∧ port ≤ 4999) ∨
      (5000 ≤ port ∧ port ≤ 5999) ∨ (8000 ≤ port ∧ port ≤ 8999) ∨
      (9000 ≤ port ∧ port ≤ 9999)) := by
  simp only [portInDevRange, Bool.or_eq_true, Bool.and_eq_true,
    decide_eq_true_eq, or_assoc]

/-- The score of a non-excluded input, as the sum of the four independent
spec-level signal contributions. -/
theorem calc_dev_score_eq_sum (process command : Str) (port : Nat)
    (address : Str) (dev_processes dev_keywords exclude_processes : List Str)
    (hany : (exclude_processes.any fun e =>
      containsSub (lower process) (lower e) ||
      containsSub (lower command) (lower e)) = false) :
    calc_dev_score process command port address
      dev_processes dev_keywords exclude_processes =
      (if ∃ p ∈ dev_processes, containsSub (lower process) (lower p) = true
        then 30 else 0) +
      (if ∃ k ∈ dev_keywords, containsSub (lower command) (lower k) = true
        then 25 else 0) +
      (if address = "127.0.0.1".data ∨ address = "localhost".data ∨
          address = "0.0.0.0".data ∨ address = "*".data ∨
          address = "[::1]".data ∨ address = "[::]".data
        then 10 else 0) +
      (if (3000 ≤ port ∧ port ≤ 3999) ∨ (4000 ≤ port ∧ port ≤ 4999) ∨
          (5000 ≤ port ∧ port ≤ 5999) ∨ (8000 ≤ port ∧ port ≤ 8999) ∨
          (9000 ≤ port ∧ port ≤ 9999)
        then 15 else 0) := by
  simp only [calc_dev_score, hany, Bool.false_eq_true, if_false]
  rw [ite_bool_prop _ _ (any_contains_iff (lower process) dev_processes)]
  rw [ite_bool_prop _ _ (any_contains_iff (lower command) dev_keywords)]
  rw [ite_bool_prop _ _ (local_address_iff address)]
  rw [ite_bool_prop _ _ (port_range_iff port)]

/-- C3: for a non-excluded input the score is the sum of the four
independent contributions (30 name, 25 keyword, 10 local address, 15 dev
port range), is at most 80, and is 80 exactly when all four signals hit. -/
theorem score_additivity (process command : Str) (port : Nat) (address : Str)
    (dev_processes dev_keywords exclude_processes : List Str)
    (h : ¬ ∃ e ∈ exclude_processes,
      containsSub (lower process) (lower e) = true ∨
      containsSub (lower command) (lower e) = true) :
    calc_dev_score process command port address
        dev_processes dev_keywords exclude_processes =
      (if ∃ p ∈ dev_processes, containsSub (lower process) (lower p) = true
        then 30 else 0) +
      (if ∃ k ∈ dev_keywords, containsSub (lower command) (lower k) = true
        then 25 else 0) +
      (if address = "127.0.0.1".data ∨ address = "localhost".data ∨
          address = "0.0.0.0".data ∨ address = "*".data ∨
          address = "[::1]".data ∨ address = "[::]".data
        then 10 else 0) +
      (if (3000 ≤ port ∧ port ≤ 3999) ∨ (4000 ≤ port ∧ port ≤ 4999) ∨
          (5000 ≤ port ∧ port ≤ 5999) ∨ (8000 ≤ port ∧ port ≤ 8999) ∨
          (9000 ≤ port ∧ port ≤ 9999)
        then 15 else 0) ∧
    calc_dev_score process command port address
        dev_processes dev_keywords exclude_processes ≤ 80 ∧
    (calc_dev_score process command port address
        dev_processes dev_keywords exclude_processes = 80 ↔
      (∃ p ∈ dev_processes, containsSub (lower process) (lower p) = true) ∧
      (∃ k ∈ dev_keywords, containsSub (lower command) (lower k) = true) ∧
      (address = "127.0.0.1".data ∨ address = "localhost".data ∨
        address = "0.0.0.0".data ∨ address = "*".data ∨
        address = "[::1]".data ∨ address = "[::]".data) ∧
      ((3000 ≤ port ∧ port ≤ 3999) ∨ (4000 ≤ port ∧ port ≤ 4999) ∨
        (5000 ≤ port ∧ port ≤ 5999) ∨ (8000 ≤ port ∧ port ≤ 8999) ∨
        (9000 ≤ port ∧ port ≤ 9999))) := by
  have hany : (exclude_processes.any fun e =>
      containsSub (lower process) (lower e) ||
      containsSub (lower command) (lower e)) = false := by
    rw [← Bool.not_eq_true, List.any_eq_true]
    intro hc
    obtain ⟨e, he, hee⟩ := hc
    exact h ⟨e, he, by simpa using hee⟩
  have hs := calc_dev_score_eq_sum process command port address
    dev_processes dev_keywords exclude_processes hany
  refine ⟨hs, ?_, ?_⟩
  · rw [hs]; split_ifs <;> omega
  · rw [hs]
    constructor
    · intro he
      by_cases h1 : ∃ p ∈ dev_processes,
          containsSub (lower process) (lower p) = true <;>
        by_cases h2 : ∃ k ∈ dev_keywords,
          containsSub (lower command) (lower k) = true <;>
        by_cases h3 : address = "127.0.0.1".data ∨ address = "localhost".data ∨
          address = "0.0.0.0".data ∨ address = "*".data ∨
          address = "[::1]".data ∨ address = "[::]".data <;>
        by_cases h4 : (3000 ≤ port ∧ port ≤ 3999) ∨
          (4000 ≤ port ∧ port ≤ 4999) ∨ (5000 ≤ port ∧ port ≤ 5999) ∨
          (8000 ≤ port ∧ port ≤ 8999) ∨ (9000 ≤ port ∧ port ≤ 9999) <;>
        simp only [h1, h2, h3, h4, if_true, if_false] at he <;>
        first
          | exact ⟨h1, h2, h3, h4⟩
          | exact absurd he (by decide)
    · rintro ⟨h1, h2, h3, h4⟩
      rw [if_pos h1, if_pos h2, if_pos h3, if_pos h4]

/-- C3 witness: the spec's additivity example scores exactly 80 with all
four signals matching. -/
theorem score_additivity_witness :
    (¬ ∃ e ∈ ([] : List Str),
      containsSub (lower "node".data) (lower e) = true ∨
      containsSub (lower "vite dev --port 3000".data) (lower e) = true) ∧
    calc_dev_score "node".data "vite dev --port 3000".data 3000
      "127.0.0.1".data ["node".data] ["vite".data] [] = 80 :=
  ⟨by decide,
   ((score_additivity "node".data "vite dev --port 3000".data 3000
      "127.0.0.1".data ["node".data] ["vite".data] [] (by decide)).2.2).mpr
     (by decide)⟩

-- ===========================================================================
-- Record filter (claim C10), empty input (claim C8), limit stage (claim C7)
-- ===========================================================================

/-- C10: the record filter returns exactly the subsequence of the input, in
input order, of records whose port equals the optional port filter and whose
process name case-insensitively contains the optional process filter; with
both filters absent it is the identity. -/
theorem filter_stage_spec (infos : List PortInfo) (pf : Option Nat)
    (nf : Option Str) :
    filter_port_infos infos pf nf = infos.filter (matchesFilters pf nf) ∧
    List.Sublist (filter_port_infos infos pf nf) infos ∧
    (∀ r : PortInfo, (filter_port_infos infos pf nf).count r =
      if matchesFilters pf nf r then infos.count r else 0) ∧
    filter_port_infos infos none none = infos := by
  have hkeep : ∀ r : PortInfo, keepInfo pf nf r = matchesFilters pf nf r := by
    intro r
    rcases pf with _ | port <;> rcases nf with _ | process <;>
      simp only [keepInfo, matchesFilters, Option.elim]
    · simp
    · by_cases hb : containsSub (lower r.process) (lower process) = true <;>
        simp [hb]
    · by_cases hq : (r.port == port) = true <;> simp [hq]
    · by_cases hq : (r.port == port) = true <;>
        by_cases hb : containsSub (lower r.process) (lower process) = true <;>
        simp [hq, hb]
  have heq : filter_port_infos infos pf nf =
      infos.filter (matchesFilters pf nf) := by
    rw [filter_port_infos]
    exact List.filter_congr (fun x _ => hkeep x)
  refine ⟨heq, ?_, ?_, ?_⟩
  · rw [heq]; exact List.filter_sublist infos
  · intro r
    rw [heq]
    by_cases hm : matchesFilters pf nf r = true
    · rw [if_pos hm, List.count_filter hm]
    · rw [if_neg (fun hc => hm hc), List.count_eq_zero]
      intro hmem
      exact hm (List.of_mem_filter hmem)
  · rw [filter_port_infos]
    refine List.filter_eq_self.mpr (fun a _ => ?_)
    simp [keepInfo]

/-- C10 witness: the filter theorem instantiated at the sample records with a
port filter. -/
theorem filter_stage_spec_witness :
    filter_port_infos exampleRecords (some 3000) none =
      exampleRecords.filter (matchesFilters (some 3000) none) :=
  (filter_stage_spec exampleRecords (some 3000) none).1

/-- C8: on the empty input the core pipeline succeeds with four empty tiers
and total count zero, for any rule set, filters, mode and limit. -/
theorem empty_input_ok (config : Config) (pf : Option Nat) (nf : Option Str)
    (show_all sort_recent : Bool) (limit : Nat) :
    runCore [] config pf nf show_all sort_recent limit =
      { dev := [], others := [], multis := [], procs := [] } ∧
    totalCount (runCore [] config pf nf show_all sort_recent limit) = 0 := by
  have h : runCore [] config pf nf show_all sort_recent limit =
      { dev := [], others := [], multis := [], procs := [] } := by
    cases show_all <;> cases sort_recent <;>
      simp [runCore, filter_port_infos, group_by_port, firstSeen, dedupFrom,
        tierPartition, nonDev, splitBuckets, group_by_process, sortTiers,
        applyLimit]
  exact ⟨h, by rw [h]; rfl⟩

/-- C8 witness: the empty-input theorem at a concrete rule set and flags. -/
theorem empty_input_ok_witness :
    runCore [] exampleConfig none none true false 0 =
      { dev := [], others := [], multis := [], procs := [] } :=
  (empty_input_ok exampleConfig none none true false 0).1

/-- C7: a positive limit truncates each tier independently to its first
`limit` elements; limit zero leaves every machine-representable tier
untouched; the reported total is the sum of the four truncated sizes. -/
theorem limit_stage_spec (limit : Nat) (t : Tiers) :
    (0 < limit → applyLimit limit t =
      { dev := t.dev.take limit, others := t.others.take limit,
        multis := t.multis.take limit, procs := t.procs.take limit }) ∧
    (limit = 0 → t.dev.length ≤ USIZE_MAX → t.others.length ≤ USIZE_MAX →
      t.multis.length ≤ USIZE_MAX → t.procs.length ≤ USIZE_MAX →
      applyLimit limit t = t) ∧
    totalCount (applyLimit limit t) =
      (applyLimit limit t).dev.length + (applyLimit limit t).others.length +
      (applyLimit limit t).multis.length +
      (applyLimit limit t).procs.length := by
  refine ⟨fun hpos => ?_, fun h0 h1 h2 h3 h4 => ?_, rfl⟩
  · simp only [applyLimit]
    rw [if_pos hpos]
  · subst h0
    simp only [applyLimit]
    rw [if_neg (lt_irrefl 0), List.take_of_length_le h1,
      List.take_of_length_le h2, List.take_of_length_le h3,
      List.take_of_length_le h4]

/-- C7 witness: limit 2 on the five-element sample dev tier truncates each
tier independently. -/
theorem limit_stage_spec_witness :
    0 < 2 ∧ applyLimit 2 exampleTiers =
      { dev := exampleTiers.dev.take 2, others := exampleTiers.others.take 2,
        multis := exampleTiers.multis.take 2,
        procs := exampleTiers.procs.take 2 } :=
  ⟨by decide, (limit_stage_spec 2 exampleTiers).1 (by decide)⟩

-- ===========================================================================
-- Port aggregator (claims C4, C9)
-- ===========================================================================

theorem makePortGroup_port (infos : List PortInfo) (config : Config)
    (p : Nat) : (makePortGroup infos config p).port = p := rfl

theorem makePortGroup_processes (infos : List PortInfo) (config : Config)
    (p : Nat) : (makePortGroup infos config p).processes =
      (infos.filter (fun i => i.port == p)).map (fun i => i.process) := rfl

theorem makePortGroup_pids (infos : List PortInfo) (config : Config)
    (p : Nat) : (makePortGroup infos config p).pids =
      firstSeen ((infos.filter (fun i => i.port == p)).map (fun i => i.pid)) :=
  rfl

theorem makePortGroup_first (infos : List PortInfo) (config : Config) (p : Nat)
    (r : PortInfo) (hr : infos.find? (fun i => i.port == p) = some r) :
    (makePortGroup infos config p).command = r.command ∧
    (makePortGroup infos config p).start_time = r.start_time ∧
    (makePortGroup infos config p).is_local = is_local_address r.address ∧
    (makePortGroup infos config p).dev_score =
      calc_dev_score r.process r.command p r.address
        config.dev_processes config.dev_keywords config.exclude_processes := by
  have hh : (infos.filter (fun i => i.port == p)).head? = some r := by
    rw [List.filter_head?, hr]
  refine ⟨?_, ?_, ?_, ?_⟩ <;> simp [makePortGroup, hh]

theorem group_by_port_ports (infos : List PortInfo) (config : Config) :
    (group_by_port infos config).map (fun g => g.port) =
      firstSeen (infos.map (fun i => i.port)) := by
  rw [group_by_port, List.map_map]
  have hc : ((fun g : GroupedPortInfo => g.port) ∘
      makePortGroup infos config) = id := by
    funext p; rfl
  rw [hc, List.map_id]

/-- C4: the aggregator yields one group per distinct input port; within a
group the first record (in input order) for that port supplies the
representative command, start time, locality and score basis; `processes`
lists one entry per contributing record in order; and `pids` holds each
distinct contributing pid exactly once, in first-seen order. -/
theorem group_by_port_spec (infos : List PortInfo) (config : Config) :
    ((group_by_port infos config).map (fun g => g.port)).Nodup ∧
    (∀ p, p ∈ (group_by_port infos config).map (fun g => g.port) ↔
      p ∈ infos.map (fun i => i.port)) ∧
    (∀ g ∈ group_by_port infos config,
      g.processes =
        (infos.filter (fun i => i.port == g.port)).map (fun i => i.process) ∧
      (∀ r, infos.find? (fun i => i.port == g.port) = some r →
        g.command = r.command ∧ g.start_time = r.start_time ∧
        g.is_local = is_local_address r.address ∧
        g.dev_score = calc_dev_score r.process r.command g.port r.address
          config.dev_processes config.dev_keywords config.exclude_processes) ∧
      g.pids.Nodup ∧
      (∀ s, s ∈ g.pids ↔
        s ∈ (infos.filter (fun i => i.port == g.port)).map (fun i => i.pid)) ∧
      g.pids.Pairwise (fun s1 s2 =>
        firstIdx s1
            ((infos.filter (fun i => i.port == g.port)).map (fun i => i.pid)) <
          firstIdx s2
            ((infos.filter (fun i => i.port == g.port)).map
              (fun i => i.pid)))) := by
  refine ⟨?_, ?_, ?_⟩
  · rw [group_by_port_ports]; exact nodup_firstSeen _
  · intro p; rw [group_by_port_ports, mem_firstSeen]
  · intro g hg
    obtain ⟨p, hp, rfl⟩ := List.mem_map.mp hg
    rw [makePortGroup_port]
    refine ⟨makePortGroup_processes infos config p, ?_, ?_, ?_, ?_⟩
    · intro r hr; exact makePortGroup_first infos config p r hr
    · rw [makePortGroup_pids]; exact nodup_firstSeen _
    · intro s; rw [makePortGroup_pids, mem_firstSeen]
    · rw [makePortGroup_pids]; exact pairwise_firstIdx_firstSeen _

/-- C4 witness: the processes list of the sample port-3000 group is exactly
the process names of the contributing records. -/
theorem group_by_port_spec_witness :
    (makePortGroup exampleRecords exampleConfig 3000).processes =
      (exampleRecords.filter (fun i => i.port ==
          (makePortGroup exampleRecords exampleConfig 3000).port)).map
        (fun i => i.process) :=
  ((group_by_port_spec exampleRecords exampleConfig).2.2
    (makePortGroup exampleRecords exampleConfig 3000) (by decide)).1

/-- C9: every group the aggregator produces has a non-empty processes list
with one entry per contributing record, a non-empty duplicate-free pid list
drawn from the contributing records, and no more pids than process
entries. -/
theorem group_by_port_invariant (infos : List PortInfo) (config : Config)
    (g : GroupedPortInfo) (hg : g ∈ group_by_port infos config) :
    g.processes ≠ [] ∧
    g.processes.length = (infos.filter (fun i => i.port == g.port)).length ∧
    g.pids ≠ [] ∧ g.pids.Nodup ∧
    (∀ s ∈ g.pids, ∃ i ∈ infos.filter (fun i => i.port == g.port),
      i.pid = s) ∧
    g.pids.length ≤ g.processes.length := by
  obtain ⟨p, hp, rfl⟩ := List.mem_map.mp hg
  simp only [makePortGroup_port, makePortGroup_processes, makePortGroup_pids]
  have hne : infos.filter (fun i => i.port == p) ≠ [] := by
    rw [mem_firstSeen] at hp
    obtain ⟨i, hi, hip⟩ := List.mem_map.mp hp
    exact List.ne_nil_of_mem (List.mem_filter.mpr ⟨hi, by simp [hip]⟩)
  refine ⟨?_, List.length_map _ _, ?_, nodup_firstSeen _, ?_, ?_⟩
  · intro hmap
    exact hne (List.map_eq_nil_iff.mp hmap)
  · have hmapne : (infos.filter (fun i => i.port == p)).map
        (fun i => i.pid) ≠ [] := by
      intro hmap
      exact hne (List.map_eq_nil_iff.mp hmap)
    obtain ⟨x, hx⟩ := List.exists_mem_of_ne_nil _ hmapne
    exact List.ne_nil_of_mem ((mem_firstSeen x _).mpr hx)
  · intro s hs
    rw [mem_firstSeen] at hs
    obtain ⟨i, hi, hip⟩ := List.mem_map.mp hs
    exact ⟨i, hi, hip⟩
  · calc (firstSeen ((infos.filter (fun i => i.port == p)).map
          (fun i => i.pid))).length
        ≤ ((infos.filter (fun i => i.port == p)).map
            (fun i => i.pid)).length := (firstSeen_sublist _).length_le
      _ = ((infos.filter (fun i => i.port == p)).map
            (fun i => i.process)).length := by
          rw [List.length_map, List.length_map]

/-- C9 witness: the invariant holds for the sample port-3000 group, whose
pid list is duplicate-free. -/
theorem group_by_port_invariant_witness :
    (makePortGroup exampleRecords exampleConfig 3000).pids.Nodup :=
  (group_by_port_invariant exampleRecords exampleConfig
    (makePortGroup exampleRecords exampleConfig 3000) (by decide)).2.2.2.1

-- ===========================================================================
-- Bucketing permutation lemma (shared by the regrouper and the partitioner)
-- ===========================================================================

theorem buckets_flatten_perm [DecidableEq K] (key : α → K) :
    ∀ (keys : List K) (l : List α), keys.Nodup → (∀ x ∈ l, key x ∈ keys) →
      List.Perm
        ((keys.map (fun k => l.filter (fun x => decide (key x = k)))).flatten)
        l := by
  intro keys
  induction keys with
  | nil =>
    intro l _ hcov
    have hl : l = [] := by
      cases l with
      | nil => rfl
      | cons a as => exact absurd (hcov a (List.mem_cons_self a as)) (by simp)
    subst hl
    simp
  | cons k ks ih =>
    intro l hnd hcov
    have hknd := List.nodup_cons.mp hnd
    have hstep : ∀ k2 ∈ ks, l.filter (fun x => decide (key x = k2)) =
        (l.filter (fun x => ! decide (key x = k))).filter
          (fun x => decide (key x = k2)) := by
      intro k2 hk2
      have hne : k2 ≠ k := fun he => hknd.1 (he ▸ hk2)
      rw [List.filter_filter]
      refine (List.filter_congr (fun x _ => ?_)).symm
      by_cases hx : key x = k2
      · have hxk : ¬ key x = k := fun he => hne (hx.symm.trans he)
        simp [hx, hxk, hne]
      · simp [hx]
    have hmap : ks.map (fun k2 => l.filter (fun x => decide (key x = k2))) =
        ks.map (fun k2 => (l.filter (fun x => ! decide (key x = k))).filter
          (fun x => decide (key x = k2))) :=
      List.map_congr_left hstep
    have hcov2 : ∀ x ∈ l.filter (fun x => ! decide (key x = k)),
        key x ∈ ks := by
      intro x hx
      obtain ⟨hxl, hxk⟩ := List.mem_filter.mp hx
      rcases List.mem_cons.mp (hcov x hxl) with he | he
      · simp [he] at hxk
      · exact he
    have e1 : ((k :: ks).map
          (fun k2 => l.filter (fun x => decide (key x = k2)))).flatten =
        l.filter (fun x => decide (key x = k)) ++
          (ks.map (fun k2 => (l.filter (fun x => ! decide (key x = k))).filter
            (fun x => decide (key x = k2)))).flatten := by
      rw [List.map_cons, List.flatten_cons, hmap]
    rw [e1]
    exact (List.Perm.append_left _ (ih _ hknd.2 hcov2)).trans
      (List.filter_append_perm _ l)

-- ===========================================================================
-- Process re-grouper (claim C5)
-- ===========================================================================

theorem makeProcessGroup_name (gs : List GroupedPortInfo) (k : Str) :
    (makeProcessGroup gs k).process_name = k := rfl

theorem makeProcessGroup_pairs (gs : List GroupedPortInfo) (k : Str) :
    (makeProcessGroup gs k).port_pid_pairs =
      (gs.filter (fun g => decide (procKey g = k))).flatMap
        (fun g => g.pids.map (fun pid => (g.port, pid))) := rfl

theorem makeProcessGroup_first (gs : List GroupedPortInfo) (k : Str)
    (r : GroupedPortInfo)
    (hr : gs.find? (fun g => decide (procKey g = k)) = some r) :
    (makeProcessGroup gs k).command = r.command ∧
    (makeProcessGroup gs k).start_time = r.start_time ∧
    (makeProcessGroup gs k).is_local = r.is_local := by
  have hh : (gs.filter (fun g => decide (procKey g = k))).head? = some r := by
    rw [List.filter_head?, hr]
  refine ⟨?_, ?_, ?_⟩ <;> simp [makeProcessGroup, hh]

theorem group_by_process_names (gs : List GroupedPortInfo) :
    (group_by_process gs).map (fun pg => pg.process_name) =
      firstSeen (gs.map procKey) := by
  rw [group_by_process, List.map_map]
  have hc : ((fun pg : ProcessGroup => pg.process_name) ∘
      makeProcessGroup gs) = id := by
    funext k; rfl
  rw [hc, List.map_id]

/-- C5: the re-grouper buckets by the first `processes` entry (the same key
as the tier partitioner), each `(port, pid)` pair of every input group
appears exactly once across the output pair lists, and each output group's
representative fields come from the first group of its bucket. -/
theorem group_by_process_spec (gs : List GroupedPortInfo) :
    ((group_by_process gs).map (fun pg => pg.process_name)).Nodup ∧
    (∀ n, n ∈ (group_by_process gs).map (fun pg => pg.process_name) ↔
      n ∈ gs.map procKey) ∧
    List.Perm
      ((group_by_process gs).flatMap (fun pg => pg.port_pid_pairs))
      (gs.flatMap (fun g => g.pids.map (fun pid => (g.port, pid)))) ∧
    (∀ pg ∈ group_by_process gs, ∀ r,
      gs.find? (fun g => decide (procKey g = pg.process_name)) = some r →
      pg.command = r.command ∧ pg.start_time = r.start_time ∧
      pg.is_local = r.is_local) := by
  refine ⟨?_, ?_, ?_, ?_⟩
  · rw [group_by_process_names]; exact nodup_firstSeen _
  · intro n; rw [group_by_process_names, mem_firstSeen]
  · have h1 : (group_by_process gs).flatMap (fun pg => pg.port_pid_pairs) =
        (firstSeen (gs.map procKey)).flatMap (fun k =>
          (gs.filter (fun g => decide (procKey g = k))).flatMap
            (fun g => g.pids.map (fun pid => (g.port, pid)))) := by
      rw [group_by_process, List.flatMap_map]
      rfl
    have h2 : (firstSeen (gs.map procKey)).flatMap (fun k =>
          (gs.filter (fun g => decide (procKey g = k))).flatMap
            (fun g => g.pids.map (fun pid => (g.port, pid)))) =
        ((firstSeen (gs.map procKey)).flatMap
            (fun k => gs.filter (fun g => decide (procKey g = k)))).flatMap
          (fun g => g.pids.map (fun pid => (g.port, pid))) :=
      (List.flatMap_assoc _ _ _).symm
    rw [h1, h2]
    refine List.Perm.flatMap_right _ ?_
    have h3 : (firstSeen (gs.map procKey)).flatMap
          (fun k => gs.filter (fun g => decide (procKey g = k))) =
        ((firstSeen (gs.map procKey)).map
          (fun k => gs.filter (fun g => decide (procKey g = k)))).flatten :=
      rfl
    rw [h3]
    exact buckets_flatten_perm procKey _ gs (nodup_firstSeen _)
      (fun g hgl => (mem_firstSeen _ _).mpr (List.mem_map_of_mem procKey hgl))
  · intro pg hpg r hr
    obtain ⟨k, hk, rfl⟩ := List.mem_map.mp hpg
    rw [makeProcessGroup_name] at hr
    exact makeProcessGroup_first gs k r hr

/-- C5 witness: the pair-completeness permutation at a concrete seed where
two groups share one owning process. -/
theorem group_by_process_spec_witness :
    List.Perm
      ((group_by_process exampleSeed).flatMap (fun pg => pg.port_pid_pairs))
      (exampleSeed.flatMap (fun g => g.pids.map (fun pid => (g.port, pid)))) :=
  (group_by_process_spec exampleSeed).2.2.1

-- ===========================================================================
-- Sort stage (claim C6)
-- ===========================================================================

theorem lexLe_total : ∀ s t : Str, (lexLe s t || lexLe t s) = true
  | [], t => by cases t <;> simp [lexLe]
  | _ :: _, [] => by simp [lexLe]
  | a :: as, b :: bs => by
    by_cases hab : a.toNat = b.toNat
    · have hba : b.toNat = a.toNat := hab.symm
      simp only [lexLe, if_pos hab, if_pos hba]
      exact lexLe_total as bs
    · have hba : ¬ b.toNat = a.toNat := fun h => hab h.symm
      simp only [lexLe, if_neg hab, if_neg hba, Bool.or_eq_true,
        decide_eq_true_eq]
      omega

theorem lexLe_trans : ∀ a b c : Str,
    lexLe a b = true → lexLe b c = true → lexLe a c = true
  | [], b, c, _, _ => by simp [lexLe]
  | a :: as, [], c, h1, _ => by simp [lexLe] at h1
  | a :: as, b :: bs, [], _, h2 => by simp [lexLe] at h2
  | a :: as, b :: bs, c :: cs, h1, h2 => by
    simp only [lexLe] at h1 h2 ⊢
    by_cases hab : a.toNat = b.toNat
    · rw [if_pos hab] at h1
      by_cases hbc : b.toNat = c.toNat
      · rw [if_pos hbc] at h2
        rw [if_pos (hab.trans hbc)]
        exact lexLe_trans as bs cs h1 h2
      · rw [if_neg hbc] at h2
        have h2n : b.toNat < c.toNat := by simpa using h2
        have hac : ¬ a.toNat = c.toNat := by omega
        rw [if_neg hac]
        simp only [decide_eq_true_eq]
        omega
    · rw [if_neg hab] at h1
      have h1n : a.toNat < b.toNat := by simpa using h1
      by_cases hbc : b.toNat = c.toNat
      · have hac : ¬ a.toNat = c.toNat := by omega
        rw [if_neg hac]
        simp only [decide_eq_true_eq]
        omega
      · rw [if_neg hbc] at h2
        have h2n : b.toNat < c.toNat := by simpa using h2
        have hac : ¬ a.toNat = c.toNat := by omega
        rw [if_neg hac]
        simp only [decide_eq_true_eq]
        omega

theorem devLe_trans (a b c : GroupedPortInfo) (h1 : devLe a b = true)
    (h2 : devLe b c = true) : devLe a c = true := by
  simp only [devLe, Bool.or_eq_true, Bool.and_eq_true,
    decide_eq_true_eq] at h1 h2 ⊢
  omega

theorem devLe_total (a b : GroupedPortInfo) :
    (devLe a b || devLe b a) = true := by
  simp only [devLe, Bool.or_eq_true, Bool.and_eq_true, decide_eq_true_eq]
  omega

theorem devLe_eq_true_iff (a b : GroupedPortInfo) : devLe a b = true ↔
    (b.dev_score < a.dev_score ∨
      (a.dev_score = b.dev_score ∧ a.port ≤ b.port)) := by
  simp [devLe]

theorem portLe_trans (a b c : GroupedPortInfo) (h1 : portLe a b = true)
    (h2 : portLe b c = true) : portLe a c = true := by
  simp only [portLe, decide_eq_true_eq] at h1 h2 ⊢
  omega

theorem portLe_total (a b : GroupedPortInfo) :
    (portLe a b || portLe b a) = true := by
  simp only [portLe, Bool.or_eq_true, decide_eq_true_eq]
  omega

theorem nameLe_trans (a b c : ProcessGroup) (h1 : nameLe a b = true)
    (h2 : nameLe b c = true) : nameLe a c = true :=
  lexLe_trans _ _ _ h1 h2

theorem nameLe_total (a b : ProcessGroup) :
    (nameLe a b || nameLe b a) = true :=
  lexLe_total a.process_name b.process_name

theorem recentLe_trans (a b c : GroupedPortInfo) (h1 : recentLe a b = true)
    (h2 : recentLe b c = true) : recentLe a c = true :=
  lexLe_trans _ _ _ h2 h1

theorem recentLe_total (a b : GroupedPortInfo) :
    (recentLe a b || recentLe b a) = true :=
  lexLe_total b.start_time a.start_time

theorem recentLeP_trans (a b c : ProcessGroup) (h1 : recentLeP a b = true)
    (h2 : recentLeP b c = true) : recentLeP a c = true :=
  lexLe_trans _ _ _ h2 h1

theorem recentLeP_total (a b : ProcessGroup) :
    (recentLeP a b || recentLeP b a) = true :=
  lexLe_total b.start_time a.start_time

/-- C6: in default mode the dev tier is sorted by descending score with
ascending port tie-break (strict whenever ports differ), the others and
multis tiers by ascending port, and process groups by ascending name; in
recent mode all four are sorted by descending lexical start time; every
sorted tier is a permutation of its input. -/
theorem sort_stage_spec (t : Tiers) :
    List.Perm (sortTiers false t).dev t.dev ∧
    List.Perm (sortTiers false t).others t.others ∧
    List.Perm (sortTiers false t).multis t.multis ∧
    List.Perm (sortTiers false t).procs t.procs ∧
    (sortTiers false t).dev.Pairwise (fun a b =>
      b.dev_score < a.dev_score ∨
        (a.dev_score = b.dev_score ∧ a.port ≤ b.port)) ∧
    (sortTiers false t).others.Pairwise (fun a b => a.port ≤ b.port) ∧
    (sortTiers false t).multis.Pairwise (fun a b => a.port ≤ b.port) ∧
    (sortTiers false t).procs.Pairwise (fun a b =>
      lexLe a.process_name b.process_name = true) ∧
    (∀ a b : GroupedPortInfo, a.port ≠ b.port →
      ¬ ((b.dev_score < a.dev_score ∨
            (a.dev_score = b.dev_score ∧ a.port ≤ b.port)) ∧
          (a.dev_score < b.dev_score ∨
            (b.dev_score = a.dev_score ∧ b.port ≤ a.port))) ∧
      ((b.dev_score < a.dev_score ∨
          (a.dev_score = b.dev_score ∧ a.port ≤ b.port)) ∨
        (a.dev_score < b.dev_score ∨
          (b.dev_score = a.dev_score ∧ b.port ≤ a.port)))) ∧
    List.Perm (sortTiers true t).dev t.dev ∧
    List.Perm (sortTiers true t).others t.others ∧
    List.Perm (sortTiers true t).multis t.multis ∧
    List.Perm (sortTiers true t).procs t.procs ∧
    (sortTiers true t).dev.Pairwise (fun a b =>
      lexLe b.start_time a.start_time = true) ∧
    (sortTiers true t).others.Pairwise (fun a b =>
      lexLe b.start_time a.start_time = true) ∧
    (sortTiers true t).multis.Pairwise (fun a b =>
      lexLe b.start_time a.start_time = true) ∧
    (sortTiers true t).procs.Pairwise (fun a b =>
      lexLe b.start_time a.start_time = true) := by
  refine ⟨List.mergeSort_perm _ _, List.mergeSort_perm _ _,
    List.mergeSort_perm _ _, List.mergeSort_perm _ _, ?_, ?_, ?_, ?_,
    ?_, List.mergeSort_perm _ _, List.mergeSort_perm _ _,
    List.mergeSort_perm _ _, List.mergeSort_perm _ _, ?_, ?_, ?_, ?_⟩
  · exact (List.sorted_mergeSort devLe_trans devLe_total t.dev).imp
      (fun hab => (devLe_eq_true_iff _ _).mp hab)
  · exact (List.sorted_mergeSort portLe_trans portLe_total t.others).imp
      (fun hab => by simpa [portLe] using hab)
  · exact (List.sorted_mergeSort portLe_trans portLe_total t.multis).imp
      (fun hab => by simpa [portLe] using hab)
  · exact (List.sorted_mergeSort nameLe_trans nameLe_total t.procs).imp
      (fun hab => hab)
  · exact fun a b hne => ⟨by omega, by omega⟩
  · exact (List.sorted_mergeSort recentLe_trans recentLe_total t.dev).imp
      (fun hab => hab)
  · exact (List.sorted_mergeSort recentLe_trans recentLe_total t.others).imp
      (fun hab => hab)
  · exact (List.sorted_mergeSort recentLe_trans recentLe_total t.multis).imp
      (fun hab => hab)
  · exact (List.sorted_mergeSort recentLeP_trans recentLeP_total t.procs).imp
      (fun hab => hab)

/-- C6 witness: the default-mode sort of the sample tiers permutes the dev
tier. -/
theorem sort_stage_spec_witness :
    List.Perm (sortTiers false exampleTiers).dev exampleTiers.dev :=
  (sort_stage_spec exampleTiers).1

-- ===========================================================================
-- Tier partitioner (claim C1)
-- ===========================================================================

theorem splitBuckets_perm : ∀ bs : List (List GroupedPortInfo),
    List.Perm ((splitBuckets bs).1 ++ (splitBuckets bs).2.1 ++
      (splitBuckets bs).2.2) bs.flatten := by
  intro bs
  induction bs with
  | nil => simp [splitBuckets]
  | cons b bs ih =>
    rcases b with _ | ⟨y, _ | ⟨z, rest⟩⟩
    · simp only [splitBuckets, List.flatten_cons, List.nil_append]
      exact ih
    · by_cases hp : y.pids.length = 1
      · simp only [splitBuckets, if_pos hp, List.flatten_cons,
          List.singleton_append, List.cons_append]
        exact ih.cons y
      · simp only [splitBuckets, if_neg hp, List.flatten_cons,
          List.singleton_append]
        refine List.Perm.trans ?_ (ih.cons y)
        simp [List.append_assoc]
    · simp only [splitBuckets, List.flatten_cons]
      have ih2 : List.Perm ((splitBuckets bs).1 ++
          ((splitBuckets bs).2.1 ++ (splitBuckets bs).2.2)) bs.flatten := by
        simpa [List.append_assoc] using ih
      refine List.Perm.trans ?_
        (List.Perm.append_left (y :: z :: rest) ih2)
      have h1 := List.perm_append_comm_assoc (splitBuckets bs).2.1
        (y :: z :: rest) (splitBuckets bs).2.2
      have h2 := List.perm_append_comm_assoc (splitBuckets bs).1
        (y :: z :: rest) ((splitBuckets bs).2.1 ++ (splitBuckets bs).2.2)
      refine List.Perm.trans ?_ h2
      have h3 := List.Perm.append_left (splitBuckets bs).1 h1
      simpa [List.append_assoc] using h3

theorem mem_splitBuckets_others (x : GroupedPortInfo) :
    ∀ bs : List (List GroupedPortInfo),
      x ∈ (splitBuckets bs).1 ↔ ([x] ∈ bs ∧ x.pids.length = 1) := by
  intro bs
  induction bs with
  | nil => simp [splitBuckets]
  | cons b bs ih =>
    rcases b with _ | ⟨y, _ | ⟨z, rest⟩⟩
    · simp only [splitBuckets, List.mem_cons, ih]
      constructor
      · rintro ⟨hb, hx⟩; exact ⟨Or.inr hb, hx⟩
      · rintro ⟨hb | hb, hx⟩
        · exact absurd hb (by simp)
        · exact ⟨hb, hx⟩
    · by_cases hp : y.pids.length = 1
      · simp only [splitBuckets, if_pos hp, List.mem_cons, ih]
        constructor
        · rintro (rfl | ⟨hb, hx⟩)
          · exact ⟨Or.inl rfl, hp⟩
          · exact ⟨Or.inr hb, hx⟩
        · rintro ⟨hb | hb, hx⟩
          · obtain rfl : x = y := by simpa using hb
            exact Or.inl rfl
          · exact Or.inr ⟨hb, hx⟩
      · simp only [splitBuckets, if_neg hp, List.mem_cons, ih]
        constructor
        · rintro ⟨hb, hx⟩; exact ⟨Or.inr hb, hx⟩
        · rintro ⟨hb | hb, hx⟩
          · obtain rfl : x = y := by simpa using hb
            exact absurd hx hp
          · exact ⟨hb, hx⟩
    · simp only [splitBuckets, List.mem_cons, ih]
      constructor
      · rintro ⟨hb, hx⟩; exact ⟨Or.inr hb, hx⟩
      · rintro ⟨hb | hb, hx⟩
        · exact absurd hb (by simp)
        · exact ⟨hb, hx⟩

theorem mem_splitBuckets_multis (x : GroupedPortInfo) :
    ∀ bs : List (List GroupedPortInfo),
      x ∈ (splitBuckets bs).2.1 ↔ ([x] ∈ bs ∧ x.pids.length ≠ 1) := by
  intro bs
  induction bs with
  | nil => simp [splitBuckets]
  | cons b bs ih =>
    rcases b with _ | ⟨y, _ | ⟨z, rest⟩⟩
    · simp only [splitBuckets, List.mem_cons, ih]
      constructor
      · rintro ⟨hb, hx⟩; exact ⟨Or.inr hb, hx⟩
      · rintro ⟨hb | hb, hx⟩
        · exact absurd hb (by simp)
        · exact ⟨hb, hx⟩
    · by_cases hp : y.pids.length = 1
      · simp only [splitBuckets, if_pos hp, List.mem_cons, ih]
        constructor
        · rintro ⟨hb, hx⟩; exact ⟨Or.inr hb, hx⟩
        · rintro ⟨hb | hb, hx⟩
          · obtain rfl : x = y := by simpa using hb
            exact absurd hp hx
          · exact ⟨hb, hx⟩
      · simp only [splitBuckets, if_neg hp, List.mem_cons, ih]
        constructor
        · rintro (rfl | ⟨hb, hx⟩)
          · exact ⟨Or.inl rfl, hp⟩
          · exact ⟨Or.inr hb, hx⟩
        · rintro ⟨hb | hb, hx⟩
          · obtain rfl : x = y := by simpa using hb
            exact Or.inl rfl
          · exact Or.inr ⟨hb, hx⟩
    · simp only [splitBuckets, List.mem_cons, ih]
      constructor
      · rintro ⟨hb, hx⟩; exact ⟨Or.inr hb, hx⟩
      · rintro ⟨hb | hb, hx⟩
        · exact absurd hb (by simp)
        · exact ⟨hb, hx⟩

theorem mem_splitBuckets_seed (x : GroupedPortInfo) :
    ∀ bs : List (List GroupedPortInfo),
      x ∈ (splitBuckets bs).2.2 ↔ ∃ b ∈ bs, x ∈ b ∧ b.length ≠ 1 := by
  intro bs
  induction bs with
  | nil => simp [splitBuckets]
  | cons b bs ih =>
    rcases b with _ | ⟨y, _ | ⟨z, rest⟩⟩
    · simp only [splitBuckets, List.nil_append, ih]
      constructor
      · rintro ⟨b2, hb2, hxb2, hlen⟩
        exact ⟨b2, List.mem_cons_of_mem _ hb2, hxb2, hlen⟩
      · rintro ⟨b2, hb2, hxb2, hlen⟩
        rcases List.mem_cons.mp hb2 with rfl | hb2
        · exact absurd hxb2 (List.not_mem_nil x)
        · exact ⟨b2, hb2, hxb2, hlen⟩
    · have hsame : (splitBuckets ([y] :: bs)).2.2 = (splitBuckets bs).2.2 := by
        by_cases hp : y.pids.length = 1 <;>
          simp only [splitBuckets, if_pos, if_neg, hp, ite_true, ite_false]
      rw [hsame, ih]
      constructor
      · rintro ⟨b2, hb2, hxb2, hlen⟩
        exact ⟨b2, List.mem_cons_of_mem _ hb2, hxb2, hlen⟩
      · rintro ⟨b2, hb2, hxb2, hlen⟩
        rcases List.mem_cons.mp hb2 with rfl | hb2
        · simp at hlen
        · exact ⟨b2, hb2, hxb2, hlen⟩
    · simp only [splitBuckets, List.mem_append, ih]
      constructor
      · rintro (hxb | ⟨b2, hb2, hxb2, hlen⟩)
        · exact ⟨y :: z :: rest, List.mem_cons_self _ _, hxb, by simp⟩
        · exact ⟨b2, List.mem_cons_of_mem _ hb2, hxb2, hlen⟩
      · rintro ⟨b2, hb2, hxb2, hlen⟩
        rcases List.mem_cons.mp hb2 with rfl | hb2
        · exact Or.inl hxb2
        · exact Or.inr ⟨b2, hb2, hxb2, hlen⟩

theorem mem_tierBuckets_of_mem (nd : List GroupedPortInfo)
    (b : List GroupedPortInfo) (hb : b ∈ tierBuckets nd)
    (x : GroupedPortInfo) (hx : x ∈ b) : b = bucketOf nd x ∧ x ∈ nd := by
  obtain ⟨k, hk, rfl⟩ := List.mem_map.mp hb
  have hxk := List.mem_filter.mp hx
  have hpk : procKey x = k := by simpa using hxk.2
  constructor
  · rw [bucketOf, hpk]
  · exact hxk.1

theorem bucketOf_mem_tierBuckets (nd : List GroupedPortInfo)
    (x : GroupedPortInfo) (hx : x ∈ nd) :
    bucketOf nd x ∈ tierBuckets nd ∧ x ∈ bucketOf nd x := by
  constructor
  · rw [tierBuckets]
    refine List.mem_map.mpr ⟨procKey x, ?_, rfl⟩
    exact (mem_firstSeen _ _).mpr (List.mem_map_of_mem procKey hx)
  · exact List.mem_filter.mpr ⟨hx, by simp⟩

theorem singleton_mem_tierBuckets (nd : List GroupedPortInfo)
    (x : GroupedPortInfo) :
    [x] ∈ tierBuckets nd ↔ x ∈ nd ∧ bucketOf nd x = [x] := by
  constructor
  · intro h
    obtain ⟨heq, hxnd⟩ := mem_tierBuckets_of_mem nd [x] h x (by simp)
    exact ⟨hxnd, heq.symm⟩
  · rintro ⟨hxnd, heq⟩
    have hmem := (bucketOf_mem_tierBuckets nd x hxnd).1
    rwa [heq] at hmem

theorem nonDev_mem (groups : List GroupedPortInfo) (threshold : Nat)
    (g : GroupedPortInfo) : g ∈ nonDev groups threshold ↔
      g ∈ groups ∧ ¬ threshold ≤ g.dev_score := by
  simp [nonDev]

theorem tierBuckets_flatten_perm (nd : List GroupedPortInfo) :
    List.Perm (tierBuckets nd).flatten nd := by
  rw [tierBuckets]
  exact buckets_flatten_perm procKey _ nd (nodup_firstSeen _)
    (fun x hx => (mem_firstSeen _ _).mpr (List.mem_map_of_mem procKey hx))

theorem tierPartition_true_def (groups : List GroupedPortInfo)
    (threshold : Nat) : tierPartition groups threshold true =
      (groups.filter (fun g => decide (threshold ≤ g.dev_score)),
       (splitBuckets (tierBuckets (nonDev groups threshold))).1,
       (splitBuckets (tierBuckets (nonDev groups threshold))).2.1,
       (splitBuckets (tierBuckets (nonDev groups threshold))).2.2) := rfl

theorem tierPartition_false_def (groups : List GroupedPortInfo)
    (threshold : Nat) : tierPartition groups threshold false =
      (groups.filter (fun g => decide (threshold ≤ g.dev_score)),
        [], [], []) := rfl

/-- C1: with show_all the four tiers are pairwise disjoint and together are
a permutation of the input; groups at or above the threshold go to the dev
tier; the remainder is bucketed by owning process name, a singleton bucket
going to others when its group has one pid and to multis when it has more,
and a larger bucket going wholesale to the process-group seed; without
show_all the remainder is discarded and only the dev tier is populated. -/
theorem tier_partition_spec (groups : List GroupedPortInfo) (threshold : Nat) :
    List.Perm ((tierPartition groups threshold true).1 ++
      (tierPartition groups threshold true).2.1 ++
      (tierPartition groups threshold true).2.2.1 ++
      (tierPartition groups threshold true).2.2.2) groups ∧
    (∀ g, g ∈ (tierPartition groups threshold true).1 ↔
      g ∈ groups ∧ threshold ≤ g.dev_score) ∧
    (∀ g, g ∈ (tierPartition groups threshold true).2.1 ↔
      g ∈ nonDev groups threshold ∧
      bucketOf (nonDev groups threshold) g = [g] ∧ g.pids.length = 1) ∧
    (∀ g, g ∈ nonDev groups threshold →
      bucketOf (nonDev groups threshold) g = [g] → 1 < g.pids.length →
      g ∈ (tierPartition groups threshold true).2.2.1) ∧
    (∀ g, g ∈ (tierPartition groups threshold true).2.2.1 →
      g ∈ nonDev groups threshold ∧
      bucketOf (nonDev groups threshold) g = [g] ∧ g.pids.length ≠ 1) ∧
    (∀ g, g ∈ (tierPartition groups threshold true).2.2.2 ↔
      g ∈ nonDev groups threshold ∧
      1 < (bucketOf (nonDev groups threshold) g).length) ∧
    (∀ g, (g ∈ (tierPartition groups threshold true).1 →
        g ∉ (tierPartition groups threshold true).2.1 ∧
        g ∉ (tierPartition groups threshold true).2.2.1 ∧
        g ∉ (tierPartition groups threshold true).2.2.2) ∧
      (g ∈ (tierPartition groups threshold true).2.1 →
        g ∉ (tierPartition groups threshold true).2.2.1 ∧
        g ∉ (tierPartition groups threshold true).2.2.2) ∧
      (g ∈ (tierPartition groups threshold true).2.2.1 →
        g ∉ (tierPartition groups threshold true).2.2.2)) ∧
    tierPartition groups threshold false =
      (groups.filter (fun g => decide (threshold ≤ g.dev_score)),
        [], [], []) := by
  have hT1 : (tierPartition groups threshold true).1 =
      groups.filter (fun g => decide (threshold ≤ g.dev_score)) := rfl
  have hT2 : (tierPartition groups threshold true).2.1 =
      (splitBuckets (tierBuckets (nonDev groups threshold))).1 := rfl
  have hT3 : (tierPartition groups threshold true).2.2.1 =
      (splitBuckets (tierBuckets (nonDev groups threshold))).2.1 := rfl
  have hT4 : (tierPartition groups threshold true).2.2.2 =
      (splitBuckets (tierBuckets (nonDev groups threshold))).2.2 := rfl
  rw [hT1, hT2, hT3, hT4]
  set nd := nonDev groups threshold with hnddef
  set dev := groups.filter (fun g => decide (threshold ≤ g.dev_score))
    with hdevdef
  set s := splitBuckets (tierBuckets nd) with hsdef
  have hdev : ∀ g : GroupedPortInfo,
      g ∈ dev ↔ g ∈ groups ∧ threshold ≤ g.dev_score := by
    intro g
    rw [hdevdef]
    simp [List.mem_filter]
  have hothers : ∀ g, g ∈ s.1 ↔
      (g ∈ nd ∧ bucketOf nd g = [g] ∧ g.pids.length = 1) := by
    intro g
    rw [hsdef, mem_splitBuckets_others, singleton_mem_tierBuckets]
    tauto
  have hmultis : ∀ g, g ∈ s.2.1 ↔
      (g ∈ nd ∧ bucketOf nd g = [g] ∧ g.pids.length ≠ 1) := by
    intro g
    rw [hsdef, mem_splitBuckets_multis, singleton_mem_tierBuckets]
    tauto
  have hseed : ∀ g, g ∈ s.2.2 ↔
      (g ∈ nd ∧ 1 < (bucketOf nd g).length) := by
    intro g
    rw [hsdef, mem_splitBuckets_seed]
    constructor
    · rintro ⟨b, hb, hgb, hlen⟩
      obtain ⟨rfl, hgnd⟩ := mem_tierBuckets_of_mem nd b hb g hgb
      refine ⟨hgnd, ?_⟩
      have hpos : 0 < (bucketOf nd g).length :=
        List.length_pos.mpr (List.ne_nil_of_mem hgb)
      omega
    · rintro ⟨hgnd, hlen⟩
      obtain ⟨hmem, hgb⟩ := bucketOf_mem_tierBuckets nd g hgnd
      exact ⟨bucketOf nd g, hmem, hgb, by omega⟩
  have hflat : List.Perm (s.1 ++ (s.2.1 ++ s.2.2)) nd := by
    have h := (splitBuckets_perm (tierBuckets nd)).trans
      (tierBuckets_flatten_perm nd)
    rw [hsdef]
    simpa [List.append_assoc] using h
  have hfil : List.Perm (dev ++ nd) groups := by
    rw [hdevdef, hnddef]
    exact List.filter_append_perm _ groups
  have hperm : List.Perm (dev ++ s.1 ++ s.2.1 ++ s.2.2) groups := by
    have h2 := (List.Perm.append_left dev hflat).trans hfil
    have hEq : dev ++ s.1 ++ s.2.1 ++ s.2.2 =
        dev ++ (s.1 ++ (s.2.1 ++ s.2.2)) := by
      simp [List.append_assoc]
    rw [hEq]
    exact h2
  refine ⟨hperm, hdev, hothers, ?_, fun g hm => (hmultis g).mp hm, hseed,
    ?_, ?_⟩
  · intro g hgnd hb hlen
    exact (hmultis g).mpr ⟨hgnd, hb, by omega⟩
  · intro g
    refine ⟨fun hd => ⟨fun ho => ?_, fun hm => ?_, fun hsd => ?_⟩,
      fun ho => ⟨fun hm => ?_, fun hsd => ?_⟩, fun hm hsd => ?_⟩
    · exact ((nonDev_mem groups threshold g).mp ((hothers g).mp ho).1).2
        ((hdev g).mp hd).2
    · exact ((nonDev_mem groups threshold g).mp ((hmultis g).mp hm).1).2
        ((hdev g).mp hd).2
    · exact ((nonDev_mem groups threshold g).mp ((hseed g).mp hsd).1).2
        ((hdev g).mp hd).2
    · exact ((hmultis g).mp hm).2.2 ((hothers g).mp ho).2.2
    · have h1 := ((hothers g).mp ho).2.1
      have h2 := ((hseed g).mp hsd).2
      rw [h1] at h2
      simp at h2
    · have h1 := ((hmultis g).mp hm).2.1
      have h2 := ((hseed g).mp hsd).2
      rw [h1] at h2
      simp at h2
  · rw [hdevdef]
    exact tierPartition_false_def groups threshold

/-- C1 witness: the partition permutation at a concrete input exercising all
four tiers. -/
theorem tier_partition_spec_witness :
    List.Perm ((tierPartition examplePartitionInput 30 true).1 ++
      (tierPartition examplePartitionInput 30 true).2.1 ++
      (tierPartition examplePartitionInput 30 true).2.2.1 ++
      (tierPartition examplePartitionInput 30 true).2.2.2)
      examplePartitionInput :=
  (tier_partition_spec examplePartitionInput 30).1

end LsofWorkPorts
